import Mathlib

/-!
Shallow embedding of `lib/Sema/NameLookup.cpp` (early Swift member lookup).

The C++ file defines `MemberLookup`, whose constructor runs `doIt(BaseTy,
Name, M)` to accumulate an ordered list `Results` of `MemberLookupResult`
candidates, plus `createResultAST` which turns the finished candidate list
and a receiver expression into a typed AST node.

Everything below is translated from the source file; external collaborators
(types, declarations, the module's extension registry) are modelled as plain
data / functions with exactly the operations the source file calls on them.
-/

namespace NameLookup

/-- Kind of a `ValueDecl`, as far as `NameLookup.cpp` discriminates them via
`dyn_cast`/`cast`: `FuncDecl` (with its `isStatic()` bit), `VarDecl`,
`TypeDecl`, and `OneOfElementDecl`. -/
inductive DeclKind where
  | func (isStatic : Bool)
  | var
  | typeDecl
  | oneOfElement
deriving DecidableEq, Repr

/-- A `ValueDecl`: the source reads its name (`getName`) and its dynamic kind.
`id` distinguishes otherwise identical declarations. -/
structure ValueDecl where
  id : Nat
  name : String
  kind : DeclKind
deriving DecidableEq, Repr

/-- Model of `LValueType::Qual`: a small bitset of qualifiers of which the source file
manipulates only the `Implicit` bit (`qs |= LValueType::Qual::Implicit`);
all other bits are carried opaquely in `otherBits`. -/
structure Qual where
  implicit : Bool
  otherBits : Nat
deriving DecidableEq, Repr

/-- The closed set of type shapes `MemberLookup::doIt` discriminates with
`getAs<...>`:
* `lvalue`  — `LValueType` (qualifiers + object type);
* `metatype` — `MetaTypeType`; the source only ever reads
  `getTypeDecl()->getDeclaredType()`, which is stored here directly;
* `moduleTy` — `ModuleType`; qualified lookup in the referenced module
  returns its declarations whose name matches, in order, so the referenced
  module is stored as its declaration list;
* `protocolTy` — `ProtocolType` with its `getDecl()->getElements()`;
* `tuple` — `TupleType`: ordered fields, each an optional name and a type;
* `oneof` — `OneOfType`: its elements, and `some ty` iff
  `getDecl()->isTransparentType()` with `ty = getTransparentType()`;
* `other` — any other type: no shape-specific rule applies. -/
inductive Ty where
  | lvalue (quals : Qual) (objectType : Ty)
  | metatype (declaredTy : Ty)
  | moduleTy (decls : List ValueDecl)
  | protocolTy (elements : List ValueDecl)
  | tuple (fields : List (Option String × Ty))
  | oneof (elements : List ValueDecl) (transparentTy : Option Ty)
  | other (tag : Nat)

/-- Model of `BaseTy->getAs<LValueType>() ? LV->getObjectType() : BaseTy` — one single
level of l-value stripping, exactly as at the top of `doIt`. -/
def stripLValue : Ty → Ty
  | .lvalue _ objectType => objectType
  | t => t

/-- Model of `BaseTy->is<LValueType>()`. -/
def Ty.isLValueType : Ty → Bool
  | .lvalue _ _ => true
  | _ => false

/-- Model of `MemberLookupResult`: kind tag plus payload (`D` or `TupleFieldNo`).
`passBase` = `PassBase`, `ignoreBase` = `IgnoreBase`,
`tupleElement` = `TupleElement`, `structElement` = `StructElement`. -/
inductive MemberLookupResult where
  | passBase (D : ValueDecl)
  | ignoreBase (D : ValueDecl)
  | tupleElement (TupleFieldNo : Nat)
  | structElement (TupleFieldNo : Nat)
deriving DecidableEq, Repr

/-- Model of `MemberLookupResult::getTupleElement(FieldNo, IsStruct)`. -/
def MemberLookupResult.getTupleElement (FieldNo : Nat)
    (IsStruct : Bool) : MemberLookupResult :=
  if IsStruct then .structElement FieldNo else .tupleElement FieldNo

/-- True iff the candidate is a field form (`TupleElement`/`StructElement`). -/
def MemberLookupResult.isFieldForm : MemberLookupResult → Bool
  | .tupleElement _ => true
  | .structElement _ => true
  | _ => false

/-- True iff the candidate's kind is `IgnoreBase`. -/
def MemberLookupResult.isIgnoreBase : MemberLookupResult → Bool
  | .ignoreBase _ => true
  | _ => false

/-- The metatype branch's rewrite `R.Kind = Result::IgnoreBase` applied to
every `PassBase` candidate ("no 'this' to pass"). -/
def MemberLookupResult.resetToIgnoreBase :
    MemberLookupResult → MemberLookupResult
  | .passBase D => .ignoreBase D
  | R => R

/-- The underlying declaration `X.D` of a declaration-form candidate; `none`
on a field form (where reading `D` would be the asserted-away case in
`createResultAST`). -/
def MemberLookupResult.getD : MemberLookupResult → Option ValueDecl
  | .passBase D => some D
  | .ignoreBase D => some D
  | _ => none

/-- Model of `FD->isStatic()` guarded by `dyn_cast<FuncDecl>`: true only for a static
function declaration. -/
def ValueDecl.isStaticFunc (VD : ValueDecl) : Bool :=
  match VD.kind with
  | .func true => true
  | _ => false

/-- The `Module` as used by the source file: the single query
`lookupGlobalExtensionMethods(BaseTy, Name, Methods)`, i.e. an external,
read-only registry of out-of-line members keyed by base type and name. -/
structure Module where
  lookupGlobalExtensionMethods : Ty → String → List ValueDecl

/-- Classification of one extension member (the loop at the end of `doIt`):
a `TypeDecl` or a static `FuncDecl` ignores the base, anything else passes
the base. -/
def classifyExtensionMember (VD : ValueDecl) : MemberLookupResult :=
  match VD.kind with
  | .typeDecl => .ignoreBase VD
  | .func true => .ignoreBase VD
  | _ => .passBase VD

/-- The extension-augmentation step of `doIt`: query the module and classify
every returned declaration, in the registry's order. -/
def extensionResults (BaseTy : Ty) (Name : String) (M : Module) :
    List MemberLookupResult :=
  (M.lookupGlobalExtensionMethods BaseTy Name).map classifyExtensionMember

/-- Model of LLVM `StringRef::getAsInteger(10, Value)` on the tail of a
dollar-identifier, parsing into a 32-bit `unsigned`: scan the characters,
failing on a non-digit or as soon as the accumulated value no longer fits
(LLVM checks overflow at each step; `unsigned` is 32 bits on every supported
platform). -/
def getAsInteger10Aux : List Char → Nat → Option Nat
  | [], Acc => some Acc
  | C :: Cs, Acc =>
    if C.isDigit then
      let Acc' := Acc * 10 + (C.toNat - 48)
      if Acc' < 2 ^ 32 then getAsInteger10Aux Cs Acc' else none
    else none

/-- Model of `StringRef::getAsInteger(10, Value)`: an empty digit string is invalid,
otherwise parse with per-step overflow checking. -/
def getAsInteger10 (Str : List Char) : Option Nat :=
  match Str with
  | [] => none
  | _ => getAsInteger10Aux Str 0

/-- Model of `TupleType::getNamedElementId(Name)`: index of the first field whose
declared name is `Name` (`none` plays the role of C++'s `-1`). -/
def getNamedElementId (Fields : List (Option String × Ty)) (Name : String) :
    Option Nat :=
  Fields.findIdx? (fun F => F.1 == some Name)

/-- Model of `MemberLookup::doTuple(TT, Name, IsStruct)`: named field first; otherwise
a `$<digits>` name is parsed as a base-10 unsigned field index and accepted
iff it parses and is `< TT->getFields().size()`.  Returns the at-most-one
candidate the C++ code pushes onto `Results`. -/
def doTuple (Fields : List (Option String × Ty)) (Name : String)
    (IsStruct : Bool) : Option MemberLookupResult :=
  match getNamedElementId Fields Name with
  | some FieldNo => some (MemberLookupResult.getTupleElement FieldNo IsStruct)
  | none =>
    match Name.data with
    | '$' :: Digits =>
      match getAsInteger10 Digits with
      | some Value =>
        if Value < Fields.length then
          some (MemberLookupResult.getTupleElement Value IsStruct)
        else none
      | none => none
    | _ => none

/-- The oneof-constructor pre-pass of the metatype branch: if the declared
type is a `OneOfType` with an element (`getElement(Name)`) literally named
`Name`, one `IgnoreBase` candidate for it. -/
def oneofConstructorPre (Td : Ty) (Name : String) : List MemberLookupResult :=
  match Td with
  | .oneof Elts _ =>
    match Elts.find? (fun E => E.name == Name) with
    | some Elt => [.ignoreBase Elt]
    | none => []
  | _ => []

/-- The tail of the metatype branch of `doIt`, applied to the whole
accumulated list (oneof-constructor pre-pass plus recursive results):
"if we find anything that requires 'this', reset it back" rewrites every
`PassBase` to `IgnoreBase`, and if any field-form result was found
(`AnyInvalid`), everything that is not `IgnoreBase` is erased. -/
def typeValuePostProcess (All : List MemberLookupResult) :
    List MemberLookupResult :=
  if All.any MemberLookupResult.isFieldForm then
    (All.map MemberLookupResult.resetToIgnoreBase).filter
      MemberLookupResult.isIgnoreBase
  else
    All.map MemberLookupResult.resetToIgnoreBase

/-- Body of `MemberLookup::doIt` after its initial one-level l-value strip, i.e. the
dispatch on the (already stripped) base type.  The metatype branch re-enters
the full `doIt` on the declared type, which is rendered here as recursion on
the declared type after its own one-level strip; the two `.metatype` arms
below are that recursion with the strip made explicit in the pattern. -/
def doItUnwrapped : Ty → String → Module → List MemberLookupResult
  | .metatype (.lvalue Q Obj), Name, M =>
    -- Handle references to the constructors of a oneof (none here: the
    -- declared type is l-value wrapped), then recurse through the wrapper.
    typeValuePostProcess
      (oneofConstructorPre (.lvalue Q Obj) Name ++ doItUnwrapped Obj Name M)
  | .metatype Td, Name, M =>
    -- Handle references to the constructors of a oneof, then perform normal
    -- dot lookup on the declared type (`doIt(Ty, Name, M)`).
    typeValuePostProcess
      (oneofConstructorPre Td Name ++ doItUnwrapped Td Name M)
  | .moduleTy Decls, Name, _ =>
    -- Qualified lookup of `Name` in the referenced module, all `IgnoreBase`.
    (Decls.filter (fun VD => VD.name == Name)).map .ignoreBase
  | .protocolTy Elts, Name, M =>
    -- First protocol element with the right name wins and returns at once;
    -- with no match, fall through (protocols are neither tuples nor oneofs,
    -- so only extension augmentation remains).
    match Elts.find? (fun VD => VD.name == Name) with
    | some VD =>
      if VD.isStaticFunc then [.ignoreBase VD] else [.passBase VD]
    | none => extensionResults (.protocolTy Elts) Name M
  | .tuple Fields, Name, M =>
    -- Tuple-field reference, then extension augmentation.
    (doTuple Fields Name false).toList ++
      extensionResults (.tuple Fields) Name M
  | .oneof Elts TransparentTy, Name, M =>
    -- Transparent oneof whose payload is a tuple, then extensions.
    (match TransparentTy with
     | some SubType =>
       match SubType with
       | .tuple Fields => doTuple Fields Name true
       | _ => none
     | none => none).toList ++
      extensionResults (.oneof Elts TransparentTy) Name M
  | .lvalue Q Obj, Name, M =>
    -- A doubly wrapped l-value: no shape rule matches the (still l-value)
    -- stripped base, so only extension augmentation runs on it.
    extensionResults (.lvalue Q Obj) Name M
  | .other T, Name, M => extensionResults (.other T) Name M

/-- Model of `MemberLookup::doIt(BaseTy, Name, M)`: the lookup entry point; "just look
through l-valueness" (one level), then dispatch. -/
def doIt (BaseTy : Ty) (Name : String) (M : Module) :
    List MemberLookupResult :=
  doItUnwrapped (stripLValue BaseTy) Name M

/-- The expression nodes `createResultAST` reads or constructs.  `atom` stands
for the caller-supplied receiver expression (only its type is ever read).
Source locations are dropped except for `DotLoc.isValid()`, which picks the
node kind for a tuple projection and is threaded as a `Bool` argument. -/
inductive Expr where
  | atom (ty : Ty)
  | lookThroughOneof (subExpr : Expr) (ty : Ty)
  | syntacticTupleElement (base : Expr) (fieldIndex : Nat) (ty : Ty)
  | implicitThisTupleElement (base : Expr) (fieldIndex : Nat) (ty : Ty)
  | declRef (D : ValueDecl)
  | dotSyntaxCall (fn : Expr) (base : Expr)
  | memberRef (base : Expr) (D : ValueDecl)
  | dotSyntaxBaseIgnored (base : Expr) (rhs : Expr)
  | overloadedMemberRef (base : Expr) (decls : List ValueDecl)

/-- Model of `Expr::getType()` for the nodes whose type this file stores or reads.
The declaration-reference nodes carry types (`getTypeOfReference`) that
`NameLookup.cpp` never reads back, so they are not modelled; `getType` on
them returns a fixed placeholder that no theorem depends on. -/
def Expr.getType : Expr → Ty
  | .atom ty => ty
  | .lookThroughOneof _ ty => ty
  | .syntacticTupleElement _ _ ty => ty
  | .implicitThisTupleElement _ _ ty => ty
  | _ => .other 0

/-- Model of `makeSimilarLValue(objectType, lvalueType, Context)`: rebuild an l-value
of `objectType` with `lvalueType`'s qualifiers, forcing the `Implicit` bit
("don't propagate explicitness").  The source `cast<LValueType>`s its second
argument; both callers only pass an l-value type there, so the non-l-value
arm is unreachable. -/
def makeSimilarLValue (objectType lvalueType : Ty) : Ty :=
  match lvalueType with
  | .lvalue qs _ => .lvalue { qs with implicit := true } objectType
  | _ => objectType

/-- Model of `lookThroughOneofs(E, Context)`: reveal a transparent oneof's payload.
Fails (`none`) where the source would trip `castTo<OneOfType>` or the
`isTransparentType` assertion. -/
def lookThroughOneofs (E : Expr) : Option Expr :=
  let IsLValue := E.getType.isLValueType
  let BaseType := stripLValue E.getType
  match BaseType with
  | .oneof _ (some TransparentTy) =>
    let ResultType :=
      if IsLValue then makeSimilarLValue TransparentTy E.getType
      else TransparentTy
    some (.lookThroughOneof E ResultType)
  | _ => none

/-- Model of `buildTupleElementExpr(Base, DotLoc, NameLoc, FieldIndex, Context)`:
project a tuple field, re-wrapping the field type as an implicit l-value
when the base is an l-value.  Fails (`none`) where the source would trip
`castTo<TupleType>` or index out of range in `getElementType`. -/
def buildTupleElementExpr (Base : Expr) (DotLocValid : Bool)
    (FieldIndex : Nat) : Option Expr :=
  let IsLValue := Base.getType.isLValueType
  let BaseTy := stripLValue Base.getType
  match BaseTy with
  | .tuple Fields =>
    match Fields.get? FieldIndex with
    | some F =>
      let FieldType :=
        if IsLValue then makeSimilarLValue F.2 Base.getType else F.2
      if DotLocValid then
        some (.syntacticTupleElement Base FieldIndex FieldType)
      else
        some (.implicitThisTupleElement Base FieldIndex FieldType)
    | none => none
  | _ => none

/-- The overload-set collection loop of `createResultAST`: walk the
candidates in order, asserting away (`none`) any field-form candidate, and
collect every underlying declaration `X.D`, duplicates included. -/
def collectResultSet : List MemberLookupResult → Option (List ValueDecl)
  | [] => some []
  | R :: Rest =>
    match R.getD with
    | some D => (collectResultSet Rest).map (fun Ds => D :: Ds)
    | none => none

/-- Model of `MemberLookup::createResultAST(Base, DotLoc, NameLoc, Context)`: build the
AST for a finished lookup.  `none` models the assertion failures: an empty
list (`assert(isSuccess())`), a field-form candidate inside a multi-candidate
list (the loop's `assert`), and the `cast<...>` failures inside the helpers
above; `cast<VarDecl>` in the `PassBase` case likewise fails on a
non-function, non-variable declaration. -/
def createResultAST (Base : Expr) (DotLocValid : Bool)
    (Results : List MemberLookupResult) : Option Expr :=
  match Results with
  | [] => none
  | [R] =>
    match R with
    | .structElement FieldNo =>
      -- `StructElement` falls through to `TupleElement` after rewriting the
      -- base into a payload-unwrap expression.
      (lookThroughOneofs Base).bind
        (fun NewBase => buildTupleElementExpr NewBase DotLocValid FieldNo)
    | .tupleElement FieldNo => buildTupleElementExpr Base DotLocValid FieldNo
    | .passBase D =>
      match D.kind with
      | .func _ => some (.dotSyntaxCall (.declRef D) Base)
      | .var => some (.memberRef Base D)
      | _ => none
    | .ignoreBase D => some (.dotSyntaxBaseIgnored Base (.declRef D))
  | _ =>
    -- Ambiguous result: collect every candidate's declaration, in order and
    -- with duplicates, into an overload set; a field-form candidate here is
    -- the asserted-away internal contract violation.
    (collectResultSet Results).map
      (fun ResultSet => .overloadedMemberRef Base ResultSet)

/-! Concrete instances used by counterexamples and witnesses. -/

/-- A variable declaration named `x`, as an extension member. -/
def exFieldDecl : ValueDecl := ⟨1, "x", .var⟩

/-- A tuple type with a single field named `x`. -/
def exTupleTy : Ty := .tuple [(some "x", .other 0)]

/-- A module whose extension registry returns `exFieldDecl` for any base type
under the name `x`. -/
def exModuleX : Module := ⟨fun _ n => if n == "x" then [exFieldDecl] else []⟩

/-- A module with an empty extension registry. -/
def exModuleEmpty : Module := ⟨fun _ _ => []⟩

/-- A contract (protocol) member named `f` (a variable requirement). -/
def exContractMember : ValueDecl := ⟨0, "f", .var⟩

/-- An extension member also named `f`. -/
def exExtMember : ValueDecl := ⟨1, "f", .var⟩

/-- A protocol type declaring the single member `f`. -/
def exProtocolTy : Ty := .protocolTy [exContractMember]

/-- A module whose extension registry returns `exExtMember` for any base type
under the name `f`. -/
def exModuleF : Module := ⟨fun _ n => if n == "f" then [exExtMember] else []⟩

/-- A three-field tuple with fields `a`, `b`, `c`. -/
def exTuple3 : List (Option String × Ty) :=
  [(some "a", .other 0), (some "b", .other 1), (some "c", .other 2)]

/-- A oneof element (case constructor) named `tagA`. -/
def exOneofElt : ValueDecl := ⟨2, "tagA", .oneOfElement⟩

/-- A oneof type with the single, non-transparent element `tagA`. -/
def exOneofTy : Ty := .oneof [exOneofElt] none

/-! Helper lemmas shared by the claim theorems. -/

/-- Extension-member classification never yields a field form. -/
theorem classifyExtensionMember_not_field (VD : ValueDecl) :
    (classifyExtensionMember VD).isFieldForm = false := by
  cases h : VD.kind with
  | func s => cases s <;> simp [classifyExtensionMember, h,
      MemberLookupResult.isFieldForm]
  | _ => simp [classifyExtensionMember, h, MemberLookupResult.isFieldForm]

/-- Extension augmentation only contributes declaration-form candidates. -/
theorem extensionResults_field_free (BaseTy : Ty) (Name : String)
    (M : Module) :
    (extensionResults BaseTy Name M).all (fun r => !r.isFieldForm) = true := by
  simp only [extensionResults, List.all_eq_true, List.mem_map]
  rintro r ⟨VD, _, rfl⟩
  simp [classifyExtensionMember_not_field]

/-- The `PassBase → IgnoreBase` rewrite does not change field-form-ness. -/
theorem resetToIgnoreBase_field (R : MemberLookupResult) :
    R.resetToIgnoreBase.isFieldForm = R.isFieldForm := by
  cases R <;> rfl

/-- After the rewrite, `IgnoreBase` and non-field-form coincide. -/
theorem resetToIgnoreBase_ignore_iff (R : MemberLookupResult) :
    R.resetToIgnoreBase.isIgnoreBase = !R.resetToIgnoreBase.isFieldForm := by
  cases R <;> rfl

/-- Keeping the `IgnoreBase` results of a rewritten list is the same as
dropping its field forms. -/
theorem filter_ignore_eq_filter_not_field (l : List MemberLookupResult) :
    (l.map MemberLookupResult.resetToIgnoreBase).filter
        MemberLookupResult.isIgnoreBase =
      (l.map MemberLookupResult.resetToIgnoreBase).filter
        (fun r => !r.isFieldForm) := by
  induction l with
  | nil => rfl
  | cons R Rest ih =>
    have h1 := resetToIgnoreBase_ignore_iff R
    cases hR : R.resetToIgnoreBase.isFieldForm <;>
      rw [hR] at h1 <;>
      simp [List.filter_cons, hR, h1, ih]

/-- The conditional erase of the metatype branch is equivalent to always
filtering out the field forms after the rewrite. -/
theorem typeValuePostProcess_eq_filter (All : List MemberLookupResult) :
    typeValuePostProcess All =
      (All.map MemberLookupResult.resetToIgnoreBase).filter
        (fun r => !r.isFieldForm) := by
  unfold typeValuePostProcess
  by_cases hAny : All.any MemberLookupResult.isFieldForm = true
  · rw [if_pos hAny]
    exact filter_ignore_eq_filter_not_field All
  · rw [if_neg hAny, eq_comm, List.filter_eq_self]
    intro r hr
    rcases List.mem_map.mp hr with ⟨s, hs, rfl⟩
    rw [Bool.not_eq_true, List.any_eq_false] at hAny
    have := hAny s hs
    simp only [Bool.not_eq_true] at this
    simp [resetToIgnoreBase_field, this]

/-- The two `.metatype` arms of `doItUnwrapped`, unified: the metatype branch
is the oneof-constructor pre-pass plus the recursive lookup on the (one-level
stripped) declared type, post-processed. -/
theorem doItUnwrapped_metatype (Td : Ty) (Name : String) (M : Module) :
    doItUnwrapped (.metatype Td) Name M =
      typeValuePostProcess
        (oneofConstructorPre Td Name ++
          doItUnwrapped (stripLValue Td) Name M) := by
  cases Td <;> rfl

/-- The metatype branch, phrased through the public entry point: rewrite every
`PassBase` from the recursive dispatch to `IgnoreBase` and drop every field
form. -/
theorem doIt_metatype_eq (Td : Ty) (Name : String) (M : Module) :
    doIt (.metatype Td) Name M =
      ((oneofConstructorPre Td Name ++ doIt Td Name M).map
          MemberLookupResult.resetToIgnoreBase).filter
        (fun r => !r.isFieldForm) := by
  show doItUnwrapped (.metatype Td) Name M = _
  rw [doItUnwrapped_metatype, typeValuePostProcess_eq_filter]
  rfl

/-- A list that satisfies `all p` still does after dropping its head. -/
theorem tail_all {α : Type} {p : α → Bool} :
    ∀ {l : List α}, l.all p = true → l.tail.all p = true
  | [], _ => rfl
  | _ :: _, h => by simp only [List.all_cons, Bool.and_eq_true] at h
                    exact h.2

/-- Everything surviving the field-form filter is field-free. -/
theorem filter_field_free (l : List MemberLookupResult) :
    ((l.filter (fun r => !r.isFieldForm)).all (fun r => !r.isFieldForm))
      = true := by
  simp only [List.all_eq_true, List.mem_filter]
  exact fun r hr => hr.2

/-- One optional shape candidate in front of field-free extension results:
the tail is field-free. -/
theorem opt_cons_tail_field_free (o : Option MemberLookupResult)
    (ext : List MemberLookupResult)
    (h : ext.all (fun r => !r.isFieldForm) = true) :
    ((o.toList ++ ext).tail.all (fun r => !r.isFieldForm)) = true := by
  cases o with
  | none => exact tail_all h
  | some c => exact h

/-- Claims C1 and C4 both reason about the candidate lists of a stripped base
type; this lemma dispatches the shape cases for the field-form bound: in
every shape branch of `doIt`, every candidate after the first one is a
declaration-form (`PassBase`/`IgnoreBase`) candidate. -/
theorem doItUnwrapped_tail_field_free (b : Ty) (Name : String) (M : Module) :
    ((doItUnwrapped b Name M).tail.all (fun r => !r.isFieldForm)) = true := by
  cases b with
  | metatype Td =>
    rw [doItUnwrapped_metatype, typeValuePostProcess_eq_filter]
    exact tail_all (filter_field_free _)
  | moduleTy Decls =>
    apply tail_all
    simp only [doItUnwrapped, List.all_eq_true, List.mem_map]
    rintro r ⟨VD, _, rfl⟩
    rfl
  | protocolTy Elts =>
    simp only [doItUnwrapped]
    cases h : Elts.find? (fun VD => VD.name == Name) with
    | some VD => cases hs : VD.isStaticFunc <;> simp [hs]
    | none => exact tail_all (extensionResults_field_free _ _ _)
  | tuple Fields =>
    simp only [doItUnwrapped]
    exact opt_cons_tail_field_free _ _ (extensionResults_field_free _ _ _)
  | oneof Elts TransparentTy =>
    simp only [doItUnwrapped]
    exact opt_cons_tail_field_free _ _ (extensionResults_field_free _ _ _)
  | lvalue Q Obj =>
    simp only [doItUnwrapped]
    exact tail_all (extensionResults_field_free _ _ _)
  | other T =>
    simp only [doItUnwrapped]
    exact tail_all (extensionResults_field_free _ _ _)

/-- Claim C1 (corrected), counterexample to the claim as stated: on a tuple
type with a field named `x`, with a module whose extension registry also
returns a member named `x`, `resolve` returns a two-candidate list that mixes
a `TupleField` candidate with a `UsesReceiver` candidate, so the list is
neither a single candidate nor all `UsesReceiver`/`IgnoresReceiver`. -/
theorem c1_counterexample :
    doIt exTupleTy "x" exModuleX =
      [.tupleElement 0, .passBase exFieldDecl] ∧
    ¬((doIt exTupleTy "x" exModuleX).length = 1 ∨
      (2 ≤ (doIt exTupleTy "x" exModuleX).length ∧
        (doIt exTupleTy "x" exModuleX).all (fun r => !r.isFieldForm)
          = true)) := by
  decide

/-- Claim C1 (amended): for every base type, member name and module, every
candidate after the first in the list returned by `resolve` is a
`UsesReceiver`/`IgnoresReceiver` candidate — so at most one field-form
candidate ever appears, and only in first position; a field form can share
the list with extension-derived candidates following it. -/
theorem c1_field_form_at_most_first :
    ∀ (BaseTy : Ty) (Name : String) (M : Module),
      ((doIt BaseTy Name M).tail.all (fun r => !r.isFieldForm)) = true :=
  fun BaseTy Name M =>
    doItUnwrapped_tail_field_free (stripLValue BaseTy) Name M

/-- Claim C2 (corrected), counterexample to the claim as stated: a protocol
type declaring `f`, queried in a module whose extension registry also
returns a member named `f`, yields exactly one candidate (the contract
member), not two. -/
theorem c2_counterexample :
    doIt exProtocolTy "f" exModuleF = [.passBase exContractMember] ∧
    (doIt exProtocolTy "f" exModuleF).length ≠ 2 := by
  decide

/-- Claim C2 (amended): for a contract (protocol) base type with a declared
member matching the name, `resolve` terminates at that member and returns
exactly one candidate, regardless of what the module's extension registry
would return for that name — extension augmentation is never consulted, so
no second candidate and no deduplication question arises on this path. -/
theorem c2_contract_member_short_circuits :
    ∀ (Elts : List ValueDecl) (Name : String) (M : Module) (VD : ValueDecl),
      Elts.find? (fun E => E.name == Name) = some VD →
      doIt (.protocolTy Elts) Name M =
        [if VD.isStaticFunc then .ignoreBase VD else .passBase VD] := by
  intro Elts Name M VD h
  show doItUnwrapped (.protocolTy Elts) Name M = _
  simp only [doItUnwrapped, h]
  cases VD.isStaticFunc <;> simp

/-- Witness for the amended C2 theorem at a concrete protocol and module. -/
theorem c2_witness :
    doIt (.protocolTy [exContractMember]) "f" exModuleF =
      [if exContractMember.isStaticFunc then .ignoreBase exContractMember
       else .passBase exContractMember] :=
  c2_contract_member_short_circuits [exContractMember] "f" exModuleF
    exContractMember (by decide)

/-- Claim C3 (confirmed): for a contract (protocol) base type, `resolve`
scans the declared members in declaration order; the first name match yields
exactly one candidate — `IgnoresReceiver` for a static function, otherwise
`UsesReceiver` — and terminates before extension augmentation, while no
match falls through (for a protocol, only extension augmentation remains,
since a protocol is neither a tuple nor a oneof). -/
theorem c3_contract_scan :
    (∀ (Elts : List ValueDecl) (Name : String) (M : Module),
      doIt (.protocolTy Elts) Name M =
        match Elts.find? (fun VD => VD.name == Name) with
        | some VD =>
          if VD.isStaticFunc then [.ignoreBase VD] else [.passBase VD]
        | none => extensionResults (.protocolTy Elts) Name M) ∧
    (∀ (Elts : List ValueDecl) (Name : String) (M : Module) (VD : ValueDecl),
      Elts.find? (fun E => E.name == Name) = some VD →
      (doIt (.protocolTy Elts) Name M).length = 1) :=
  ⟨fun _ _ _ => rfl,
   fun Elts Name M VD h => by
    show (doItUnwrapped (.protocolTy Elts) Name M).length = 1
    simp only [doItUnwrapped, h]
    cases VD.isStaticFunc <;> rfl⟩

/-- Witness for C3: with an extension member of the same name registered, the
contract member still yields a single-candidate list. -/
theorem c3_witness :
    (doIt (.protocolTy [exContractMember]) "f" exModuleF).length = 1 :=
  c3_contract_scan.2 [exContractMember] "f" exModuleF exContractMember
    (by decide)

/-- Claim C8 (corrected), counterexample to the claim as stated: the source
strips exactly one l-value level, so wrapping a type that is already an
l-value wrapper changes the result (the doubly wrapped lookup misses the
tuple field). -/
theorem c8_counterexample :
    doIt
        (.lvalue ⟨false, 0⟩
          (.lvalue ⟨false, 0⟩ (.tuple [(some "x", .other 0)])))
        "x" exModuleEmpty ≠
      doIt (.lvalue ⟨false, 0⟩ (.tuple [(some "x", .other 0)])) "x"
        exModuleEmpty := by
  decide

/-- Claim C8 (amended): for every base type `T` that is not itself a
mutable-reference (l-value) wrapper, `resolve` on an l-value wrapper around
`T` returns exactly the same candidate list, in the same order, as `resolve`
on `T` itself. -/
theorem c8_lvalue_strip :
    ∀ (Q : Qual) (T : Ty) (Name : String) (M : Module),
      T.isLValueType = false →
      doIt (.lvalue Q T) Name M = doIt T Name M := by
  intro Q T Name M h
  unfold doIt
  cases T <;> first
    | rfl
    | simp [Ty.isLValueType] at h

/-- Witness for the amended C8 theorem on a concrete wrapped tuple type. -/
theorem c8_witness :
    doIt (.lvalue ⟨true, 0⟩ (.tuple [(some "x", .other 0)])) "x" exModuleX =
      doIt (.tuple [(some "x", .other 0)]) "x" exModuleX :=
  c8_lvalue_strip ⟨true, 0⟩ (.tuple [(some "x", .other 0)]) "x" exModuleX
    (by decide)

/-- Claim C4 (confirmed): for a type-value (metatype) base, the result is the
oneof-constructor pre-pass plus the recursive instance dispatch, with every
`UsesReceiver` (`PassBase`) candidate rewritten to `IgnoresReceiver`
(`IgnoreBase`) and every `TupleField`/`WrappedTupleField` candidate dropped;
in particular a recursive lookup producing one `UsesReceiver` and one
`TupleField` candidate yields only one `IgnoresReceiver` candidate. -/
theorem c4_type_value_filtering :
    (∀ (Td : Ty) (Name : String) (M : Module),
      doIt (.metatype Td) Name M =
        ((oneofConstructorPre Td Name ++ doIt Td Name M).map
            MemberLookupResult.resetToIgnoreBase).filter
          (fun r => !r.isFieldForm)) ∧
    (doIt exTupleTy "x" exModuleX =
        [.tupleElement 0, .passBase exFieldDecl] ∧
      doIt (.metatype exTupleTy) "x" exModuleX =
        [.ignoreBase exFieldDecl]) :=
  ⟨doIt_metatype_eq, by decide⟩

/-- Claim C5 (confirmed): tuple field resolution prefers a field whose
declared name matches; otherwise a `$<digits>` name is parsed as a base-10
unsigned integer and a candidate is produced iff parsing succeeds and the
value is below the field count; on a 3-field tuple, `$2` resolves to field 2
while `$9` (out of range) and `$abc` (malformed) yield no candidate. -/
theorem c5_tuple_field_rules :
    (∀ (Fields : List (Option String × Ty)) (Name : String) (IsStruct : Bool)
        (FieldNo : Nat),
      getNamedElementId Fields Name = some FieldNo →
      doTuple Fields Name IsStruct =
        some (MemberLookupResult.getTupleElement FieldNo IsStruct)) ∧
    (∀ (Fields : List (Option String × Ty)) (Digits : List Char)
        (IsStruct : Bool),
      getNamedElementId Fields (String.mk ('$' :: Digits)) = none →
      doTuple Fields (String.mk ('$' :: Digits)) IsStruct =
        match getAsInteger10 Digits with
        | some Value =>
          if Value < Fields.length then
            some (MemberLookupResult.getTupleElement Value IsStruct)
          else none
        | none => none) ∧
    (doTuple exTuple3 "$2" false = some (.tupleElement 2) ∧
      doTuple exTuple3 "$9" false = none ∧
      doTuple exTuple3 "$abc" false = none) := by
  refine ⟨fun Fields Name IsStruct FieldNo h => ?_,
          fun Fields Digits IsStruct h => ?_, by decide⟩
  · simp only [doTuple, h]
  · simp only [doTuple, h]

/-- Witness for C5: the named-field rule and the dollar-digit rule at
concrete inputs. -/
theorem c5_witness :
    doTuple [(some "x", .other 0)] "x" false = some (.tupleElement 0) ∧
    doTuple exTuple3 (String.mk ('$' :: ['1'])) false =
      (match getAsInteger10 ['1'] with
       | some Value =>
         if Value < exTuple3.length then
           some (MemberLookupResult.getTupleElement Value false)
         else none
       | none => none) :=
  ⟨c5_tuple_field_rules.1 [(some "x", .other 0)] "x" false 0 (by decide),
   c5_tuple_field_rules.2.1 exTuple3 ['1'] false (by decide)⟩

/-- The decimal value of a digit string, with no overflow truncation: the
reference value the parser is compared against. -/
def digitsToNat (Digits : List Char) : Nat :=
  Digits.foldl (fun Acc C => Acc * 10 + (C.toNat - 48)) 0

/-- A successful parse computes the exact decimal value of the digits, and —
because overflow is checked at every step — that value fits in 32 bits. -/
theorem getAsInteger10Aux_some :
    ∀ (Digits : List Char) (Acc v : Nat), Digits ≠ [] →
      getAsInteger10Aux Digits Acc = some v →
      v = Digits.foldl (fun A C => A * 10 + (C.toNat - 48)) Acc ∧
        v < 2 ^ 32 := by
  intro Digits
  induction Digits with
  | nil => intro Acc v hne _; exact absurd rfl hne
  | cons C Cs ih =>
    intro Acc v _ h
    simp only [getAsInteger10Aux] at h
    by_cases hd : C.isDigit = true
    · rw [if_pos hd] at h
      by_cases ho : Acc * 10 + (C.toNat - 48) < 2 ^ 32
      · rw [if_pos ho] at h
        cases Cs with
        | nil =>
          simp only [getAsInteger10Aux, Option.some_inj] at h
          subst h
          exact ⟨rfl, ho⟩
        | cons C2 Cs2 =>
          have := ih (Acc * 10 + (C.toNat - 48)) v (by simp) h
          exact ⟨this.1, this.2⟩
      · rw [if_neg ho] at h
        exact absurd h (by simp)
    · rw [if_neg hd] at h
      exact absurd h (by simp)

/-- Claim C9 (confirmed): a `$<digits>` name whose well-formed digit string
denotes a value that does not fit the 32-bit unsigned parser yields no
candidate — overflow never wraps around to select a valid field index. -/
theorem c9_overflow_rejected :
    ∀ (Fields : List (Option String × Ty)) (Digits : List Char)
      (IsStruct : Bool),
      (∀ C ∈ Digits, C.isDigit = true) →
      2 ^ 32 ≤ digitsToNat Digits →
      getNamedElementId Fields (String.mk ('$' :: Digits)) = none →
      doTuple Fields (String.mk ('$' :: Digits)) IsStruct = none := by
  intro Fields Digits IsStruct _hdig hov hname
  have hne : Digits ≠ [] := by
    rintro rfl
    simp [digitsToNat] at hov
  simp only [doTuple, hname]
  show (match getAsInteger10 Digits with
        | some Value =>
          if Value < Fields.length then
            some (MemberLookupResult.getTupleElement Value IsStruct)
          else none
        | none => none) = none
  cases hp : getAsInteger10 Digits with
  | none => rfl
  | some v =>
    have hp' : getAsInteger10Aux Digits 0 = some v := by
      cases Digits with
      | nil => exact absurd rfl hne
      | cons C Cs => simpa [getAsInteger10] using hp
    have hv := getAsInteger10Aux_some Digits 0 v hne hp'
    have : v = digitsToNat Digits := hv.1
    omega

/-- Witness for C9: `$4294967296` (exactly `2 ^ 32`) on a 3-field tuple
yields no candidate. -/
theorem c9_witness :
    doTuple exTuple3 (String.mk ('$' :: "4294967296".data)) false = none :=
  c9_overflow_rejected exTuple3 "4294967296".data false (by decide)
    (by decide) (by decide)

/-- Claim C10 (confirmed): discovery order is preserved across phases — a
tuple-field candidate (direct or through a transparent oneof) precedes all
extension-derived candidates, and for a type-value base whose referenced
oneof has a tag matching the name, the tag-constructor candidate comes
first, before everything contributed by the recursive instance lookup. -/
theorem c10_discovery_order :
    (∀ (Fields : List (Option String × Ty)) (Name : String) (M : Module)
        (c : MemberLookupResult),
      doTuple Fields Name false = some c →
      doIt (.tuple Fields) Name M =
        c :: extensionResults (.tuple Fields) Name M) ∧
    (∀ (Elts : List ValueDecl) (Fields : List (Option String × Ty))
        (Name : String) (M : Module) (c : MemberLookupResult),
      doTuple Fields Name true = some c →
      doIt (.oneof Elts (some (.tuple Fields))) Name M =
        c :: extensionResults (.oneof Elts (some (.tuple Fields))) Name M) ∧
    (∀ (Elts : List ValueDecl) (Tr : Option Ty) (Name : String) (M : Module)
        (Elt : ValueDecl),
      Elts.find? (fun E => E.name == Name) = some Elt →
      doIt (.metatype (.oneof Elts Tr)) Name M =
        .ignoreBase Elt ::
          ((doIt (.oneof Elts Tr) Name M).map
              MemberLookupResult.resetToIgnoreBase).filter
            (fun r => !r.isFieldForm)) := by
  refine ⟨fun Fields Name M c h => ?_, fun Elts Fields Name M c h => ?_,
          fun Elts Tr Name M Elt h => ?_⟩
  · show doItUnwrapped (.tuple Fields) Name M = _
    simp [doItUnwrapped, h]
  · show doItUnwrapped (.oneof Elts (some (.tuple Fields))) Name M = _
    simp [doItUnwrapped, h]
  · rw [doIt_metatype_eq]
    simp [oneofConstructorPre, h, List.filter_cons,
      MemberLookupResult.resetToIgnoreBase, MemberLookupResult.isFieldForm]

/-- Witness for C10: all three ordering facts at concrete inputs. -/
theorem c10_witness :
    doIt (.tuple [(some "x", .other 0)]) "x" exModuleX =
      .tupleElement 0 ::
        extensionResults (.tuple [(some "x", .other 0)]) "x" exModuleX ∧
    doIt (.oneof [exOneofElt] (some (.tuple [(some "x", .other 0)]))) "x"
        exModuleX =
      .structElement 0 ::
        extensionResults
          (.oneof [exOneofElt] (some (.tuple [(some "x", .other 0)]))) "x"
          exModuleX ∧
    doIt (.metatype (.oneof [exOneofElt] none)) "tagA" exModuleEmpty =
      .ignoreBase exOneofElt ::
        ((doIt (.oneof [exOneofElt] none) "tagA" exModuleEmpty).map
            MemberLookupResult.resetToIgnoreBase).filter
          (fun r => !r.isFieldForm) :=
  ⟨c10_discovery_order.1 [(some "x", .other 0)] "x" exModuleX
      (.tupleElement 0) (by decide),
   c10_discovery_order.2.1 [exOneofElt] [(some "x", .other 0)] "x" exModuleX
      (.structElement 0) (by decide),
   c10_discovery_order.2.2 [exOneofElt] none "tagA" exModuleEmpty exOneofElt
      (by decide)⟩

/-- Claim C6 (confirmed): synthesizing a single `TupleField` candidate on a
receiver whose type is a mutable reference (l-value) to a tuple produces a
field-projection expression whose type is the field's type wrapped as a
mutable reference carrying the receiver's qualifiers with the implicit
qualifier forced on — whatever the receiver's original `implicit` bit. -/
theorem c6_lvalue_projection :
    ∀ (Base : Expr) (Q : Qual) (Fields : List (Option String × Ty))
      (FieldIndex : Nat) (F : Option String × Ty) (DotLocValid : Bool),
      Base.getType = .lvalue Q (.tuple Fields) →
      Fields.get? FieldIndex = some F →
      ∃ E,
        createResultAST Base DotLocValid [.tupleElement FieldIndex] =
          some E ∧
        E.getType = .lvalue { Q with implicit := true } F.2 := by
  intro Base Q Fields FieldIndex F DotLocValid hty hget
  show ∃ E, buildTupleElementExpr Base DotLocValid FieldIndex = some E ∧ _
  rw [List.get?_eq_getElem?] at hget
  cases DotLocValid with
  | true =>
    refine ⟨.syntacticTupleElement Base FieldIndex
      (.lvalue { Q with implicit := true } F.2), ?_, rfl⟩
    unfold buildTupleElementExpr
    rw [hty]
    simp [stripLValue, Ty.isLValueType, hget, makeSimilarLValue]
  | false =>
    refine ⟨.implicitThisTupleElement Base FieldIndex
      (.lvalue { Q with implicit := true } F.2), ?_, rfl⟩
    unfold buildTupleElementExpr
    rw [hty]
    simp [stripLValue, Ty.isLValueType, hget, makeSimilarLValue]

/-- Witness for C6: an explicitly written (non-implicit) mutable reference to
a one-field tuple still projects to an implicit mutable reference. -/
theorem c6_witness :
    ∃ E,
      createResultAST
          (.atom (.lvalue ⟨false, 3⟩ (.tuple [(some "x", .other 5)]))) true
          [.tupleElement 0] =
        some E ∧
      E.getType = .lvalue ⟨true, 3⟩ (.other 5) :=
  c6_lvalue_projection
    (.atom (.lvalue ⟨false, 3⟩ (.tuple [(some "x", .other 5)]))) ⟨false, 3⟩
    [(some "x", .other 5)] 0 (some "x", .other 5) true rfl rfl

/-- If any candidate is a field form, extracting the underlying declarations
fails — the asserted-away case of the overload-set loop. -/
theorem collectResultSet_none :
    ∀ (Results : List MemberLookupResult),
      (∃ r ∈ Results, r.isFieldForm = true) →
      collectResultSet Results = none := by
  intro Results
  induction Results with
  | nil => rintro ⟨r, hr, _⟩; simp at hr
  | cons R Rest ih =>
    rintro ⟨r, hr, hf⟩
    rcases List.mem_cons.mp hr with rfl | hmem
    · cases r <;> simp_all [collectResultSet, MemberLookupResult.getD,
        MemberLookupResult.isFieldForm]
    · have hnone := ih ⟨r, hmem, hf⟩
      cases hR : R.getD <;>
        simp [collectResultSet, hR, hnone]

/-- Claim C7 (confirmed): `synthesize` on an empty list, or on a
multi-candidate list containing a field-form candidate, hits a fatal
assertion (modelled `none`); on a multi-candidate list of declaration-form
candidates it builds one unresolved-overload expression with the underlying
declarations in discovery order, duplicates preserved. -/
theorem c7_synthesize_contract :
    (∀ (Base : Expr) (DotLocValid : Bool),
      createResultAST Base DotLocValid [] = none) ∧
    (∀ (Base : Expr) (DotLocValid : Bool)
        (Results : List MemberLookupResult),
      2 ≤ Results.length → (∃ r ∈ Results, r.isFieldForm = true) →
      createResultAST Base DotLocValid Results = none) ∧
    (∀ (Base : Expr) (DotLocValid : Bool)
        (Results : List MemberLookupResult) (ResultSet : List ValueDecl),
      2 ≤ Results.length →
      collectResultSet Results = some ResultSet →
      createResultAST Base DotLocValid Results =
        some (.overloadedMemberRef Base ResultSet)) ∧
    (∀ (Base : Expr) (DotLocValid : Bool) (D1 D2 : ValueDecl),
      createResultAST Base DotLocValid
          [.passBase D1, .ignoreBase D2, .passBase D1] =
        some (.overloadedMemberRef Base [D1, D2, D1])) := by
  refine ⟨fun _ _ => rfl, fun Base DotLocValid Results hlen hfield => ?_,
          fun Base DotLocValid Results ResultSet hlen hmap => ?_,
          fun _ _ _ _ => rfl⟩
  · match Results, hlen, hfield with
    | R1 :: R2 :: Rest, _, hfield =>
      show (collectResultSet (R1 :: R2 :: Rest)).map
          (fun ResultSet => Expr.overloadedMemberRef Base ResultSet) = none
      rw [collectResultSet_none _ hfield]
      rfl
  · match Results, hlen, hmap with
    | R1 :: R2 :: Rest, _, hmap =>
      show (collectResultSet (R1 :: R2 :: Rest)).map
          (fun ResultSet => Expr.overloadedMemberRef Base ResultSet) = _
      rw [hmap]
      rfl

/-- Witness for C7: the assertion fires on a concrete mixed two-candidate
list, and a concrete declaration-form pair becomes an overload set. -/
theorem c7_witness :
    createResultAST (.atom (.other 0)) true
        [.tupleElement 0, .passBase exFieldDecl] = none ∧
    createResultAST (.atom (.other 0)) true
        [.passBase exFieldDecl, .ignoreBase exContractMember] =
      some (.overloadedMemberRef (.atom (.other 0))
        [exFieldDecl, exContractMember]) :=
  ⟨c7_synthesize_contract.2.1 (.atom (.other 0)) true
      [.tupleElement 0, .passBase exFieldDecl] (by decide) (by decide),
   c7_synthesize_contract.2.2.1 (.atom (.other 0)) true
      [.passBase exFieldDecl, .ignoreBase exContractMember]
      [exFieldDecl, exContractMember] (by decide) (by decide)⟩

end NameLookup
